import Mathlib

/-!
Verification development for the meeting numbering application.

The data model (per-meeting slot table, pool population, participant
response flow) is embedded from the single source file of the repository.
The number-assignment operations of the Number Pool Manager described by
the design document are not present in that source file; they are
modelled from the design document's own words, as marked on each such
definition.
-/

set_option autoImplicit false

/-- Slot record, embedded from the per-meeting table the source creates:
columns numero INT NOT NULL UNIQUE, atribuido BOOLEAN DEFAULT FALSE,
usuario_id TEXT, atribuido_em TIMESTAMPTZ.  Timestamps are abstracted as
natural numbers. -/
structure Slot where
  numero : Nat
  atribuido : Bool
  usuario_id : Option String
  atribuido_em : Option Nat
deriving DecidableEq, Repr

/-- Error taxonomy of the pool manager, from the design document. -/
inductive PoolError where
  | InvalidSize
  | PoolNotFound
  | PoolExhausted
deriving DecidableEq, Repr

/-- Slot rows inserted when a meeting is created, embedded from the source:
one row per n in range(1, max_numeros + 1), each with column defaults
atribuido = FALSE and NULL usuario_id and atribuido_em. -/
def nova_reuniao_numeros (max_numeros : Int) : List Slot :=
  (List.range' 1 max_numeros.toNat).map (fun n => ⟨n, false, none, none⟩)

/-- Outcome of creating a meeting, embedded from the source: the creation
handler performs no validation of the requested size, so the embedding is
total and never produces an error value. -/
def nova_reuniao (max_numeros : Int) : Except PoolError (List Slot) :=
  Except.ok (nova_reuniao_numeros max_numeros)

/-- Result of an assignment request. -/
inductive AssignResult where
  | assigned (n : Nat)
  | poolExhausted
deriving DecidableEq, Repr

/-- Modelled from the spec: lookup of the existing Assignment of a holder
in a pool.  The repository code implementing the assignment engine is not
present in the source file; only the pool-creation side is. -/
def findAssignment (slots : List Slot) (h : String) : Option Nat :=
  (slots.find? (fun s => s.atribuido && s.usuario_id == some h)).map Slot.numero

/-- Modelled from the spec: the atomic Claim step.  Selects one free slot
(the first free slot in table order, i.e. the lowest free number, the
substitute selection policy the design document explicitly permits),
transitions it to assigned with the holder and the current time, and
returns its number; fails when no free slot remains. -/
def claimSlot (slots : List Slot) (h : String) (now : Nat) : AssignResult × List Slot :=
  match slots.find? (fun s => !s.atribuido) with
  | none => (AssignResult.poolExhausted, slots)
  | some c =>
      (AssignResult.assigned c.numero,
       slots.map (fun t =>
         if t.numero == c.numero then ⟨t.numero, true, some h, some now⟩ else t))

/-- Modelled from the spec: requestAssignment.  Returns the existing
number when an Assignment for the holder already exists (idempotent, no
mutation); otherwise performs the atomic Claim step. -/
def requestAssignment (slots : List Slot) (h : String) (now : Nat) :
    AssignResult × List Slot :=
  match findAssignment slots h with
  | some n => (AssignResult.assigned n, slots)
  | none => claimSlot slots h now

/-- Modelled from the spec: releaseAll, the administrative reset.  Clears
holder and assignment data for every slot, returning all slots to free. -/
def releaseAll (slots : List Slot) : List Slot :=
  slots.map (fun s => ⟨s.numero, false, none, none⟩)

/-- Aggregate counts reported for a pool. -/
structure PoolStatus where
  total : Nat
  free : Nat
  assigned : Nat
deriving DecidableEq, Repr

/-- Modelled from the spec: poolStatus, the read-only aggregate snapshot. -/
def poolStatus (slots : List Slot) : PoolStatus :=
  ⟨slots.length,
   (slots.filter (fun s => !s.atribuido)).length,
   (slots.filter (fun s => s.atribuido)).length⟩

/-- Sequential composition of assignment requests.  The design document
requires each requestAssignment call to be indivisible with respect to the
other assignment operations on the pool, so every concurrent schedule of
calls is observationally equivalent to some sequence of this form. -/
def runRequests (slots : List Slot) (reqs : List (String × Nat)) :
    List (String × AssignResult) × List Slot :=
  match reqs with
  | [] => ([], slots)
  | (h, t) :: rest =>
      let p := requestAssignment slots h t
      let q := runRequests p.2 rest
      ((h, p.1) :: q.1, q.2)

/-- Holder h holds number n in the pool state. -/
def assignedTo (slots : List Slot) (h : String) (n : Nat) : Prop :=
  ∃ s ∈ slots, s.numero = n ∧ s.atribuido = true ∧ s.usuario_id = some h

instance (slots : List Slot) (h : String) (n : Nat) :
    Decidable (assignedTo slots h n) := by
  unfold assignedTo
  infer_instance

/-- Response row, embedded from the respostas table of the source:
formulario_id, usuario_id, and the JSON payload (abstracted as a string). -/
structure Resposta where
  formulario_id : String
  usuario_id : String
  conteudo : String
deriving DecidableEq, Repr

/-- Rows of the response table for one (form, user) pair, embedded from
the existing-response query of the source. -/
def respostas_do (db : List Resposta) (fid uid : String) : List Resposta :=
  db.filter (fun r => r.formulario_id == fid && r.usuario_id == uid)

/-- Outcome of one participant-mode script run. -/
inductive RunOutcome where
  | jaRespondeu
  | naoEnviou
  | enviou
deriving DecidableEq, Repr

/-- One participant-mode script run, embedded from the source: a run first
queries for an existing response of the session user for the form and, if
one exists, warns and stops before the form is rendered; otherwise the
form renders and, when the submit button was pressed, exactly one response
row is inserted. -/
def participant_run (db : List Resposta) (fid uid : String)
    (submit : Bool) (payload : String) : RunOutcome × List Resposta :=
  match respostas_do db fid uid with
  | _ :: _ => (RunOutcome.jaRespondeu, db)
  | [] =>
      if submit then (RunOutcome.enviou, db ++ [⟨fid, uid, payload⟩])
      else (RunOutcome.naoEnviou, db)

/-- Sequential execution of participant-mode runs. -/
def runParticipant (db : List Resposta)
    (acts : List (String × String × Bool × String)) : List Resposta :=
  match acts with
  | [] => db
  | (f, u, s, p) :: rest => runParticipant (participant_run db f u s p).2 rest

/-- Lower bound of the participant-count widget, from the source. -/
def max_numeros_min : Int := 10

/-- Upper bound of the participant-count widget, from the source. -/
def max_numeros_max : Int := 10000

/-- Default value of the participant-count widget, from the source. -/
def max_numeros_default : Int := 100

/-! Branch equations for the claim step and requestAssignment. -/

lemma requestAssignment_eq_of_found {slots : List Slot} {h : String} {now n : Nat}
    (hf : findAssignment slots h = some n) :
    requestAssignment slots h now = (AssignResult.assigned n, slots) := by
  unfold requestAssignment; rw [hf]

lemma requestAssignment_eq_of_fresh {slots : List Slot} {h : String} {now : Nat}
    (hf : findAssignment slots h = none) :
    requestAssignment slots h now = claimSlot slots h now := by
  unfold requestAssignment; rw [hf]

lemma claimSlot_eq_of_none {slots : List Slot} {h : String} {now : Nat}
    (hc : slots.find? (fun s => !s.atribuido) = none) :
    claimSlot slots h now = (AssignResult.poolExhausted, slots) := by
  unfold claimSlot; rw [hc]

lemma claimSlot_eq_of_some {slots : List Slot} {h : String} {now : Nat} {c : Slot}
    (hc : slots.find? (fun s => !s.atribuido) = some c) :
    claimSlot slots h now =
      (AssignResult.assigned c.numero,
       slots.map (fun t =>
         if t.numero == c.numero then ⟨t.numero, true, some h, some now⟩ else t)) := by
  unfold claimSlot; rw [hc]

lemma map_numero_claimSlot (slots : List Slot) (h : String) (now : Nat) :
    ((claimSlot slots h now).2).map Slot.numero = slots.map Slot.numero := by
  cases hc : slots.find? (fun s => !s.atribuido) with
  | none => rw [claimSlot_eq_of_none hc]
  | some c =>
      rw [claimSlot_eq_of_some hc]
      simp only [List.map_map]
      refine List.map_congr_left ?_
      intro s _
      by_cases hn : (s.numero == c.numero) = true <;>
        simp [Function.comp, hn]

lemma map_numero_requestAssignment (slots : List Slot) (h : String) (now : Nat) :
    ((requestAssignment slots h now).2).map Slot.numero = slots.map Slot.numero := by
  cases hf : findAssignment slots h with
  | none => rw [requestAssignment_eq_of_fresh hf]; exact map_numero_claimSlot slots h now
  | some n => rw [requestAssignment_eq_of_found hf]

lemma length_requestAssignment (slots : List Slot) (h : String) (now : Nat) :
    ((requestAssignment slots h now).2).length = slots.length := by
  have := congrArg List.length (map_numero_requestAssignment slots h now)
  simpa using this

lemma nodup_requestAssignment (slots : List Slot) (h : String) (now : Nat)
    (hnd : (slots.map Slot.numero).Nodup) :
    (((requestAssignment slots h now).2).map Slot.numero).Nodup := by
  rw [map_numero_requestAssignment]; exact hnd

lemma numero_injective (slots : List Slot)
    (hnd : (slots.map Slot.numero).Nodup)
    {s1 s2 : Slot} (h1 : s1 ∈ slots) (h2 : s2 ∈ slots)
    (hn : s1.numero = s2.numero) : s1 = s2 :=
  List.inj_on_of_nodup_map hnd h1 h2 hn

lemma assigned_mem_requestAssignment (slots : List Slot) (h : String) (now : Nat)
    (hnd : (slots.map Slot.numero).Nodup)
    {s : Slot} (hs : s ∈ slots) (ha : s.atribuido = true) :
    s ∈ (requestAssignment slots h now).2 := by
  cases hf : findAssignment slots h with
  | some n => rw [requestAssignment_eq_of_found hf]; exact hs
  | none =>
      rw [requestAssignment_eq_of_fresh hf]
      cases hc : slots.find? (fun s => !s.atribuido) with
      | none => rw [claimSlot_eq_of_none hc]; exact hs
      | some c =>
          rw [claimSlot_eq_of_some hc]
          have hcm : c ∈ slots := List.mem_of_find?_eq_some hc
          have hcf : c.atribuido = false := by
            have := List.find?_some hc
            simpa using this
          have hne : (s.numero == c.numero) = false := by
            refine beq_eq_false_iff_ne.mpr ?_
            intro hnum
            have hsc : s = c := numero_injective slots hnd hs hcm hnum
            rw [hsc] at ha
            rw [ha] at hcf
            simp at hcf
          have heq : (fun t : Slot =>
              if (t.numero == c.numero) = true then
                (⟨t.numero, true, some h, some now⟩ : Slot) else t) s = s := by
            simp [hne]
          exact heq ▸ List.mem_map_of_mem _ hs

lemma assignedTo_requestAssignment (slots : List Slot) (h : String) (now : Nat)
    {n : Nat} (hres : (requestAssignment slots h now).1 = AssignResult.assigned n) :
    assignedTo (requestAssignment slots h now).2 h n := by
  cases hf : findAssignment slots h with
  | some m =>
      rw [requestAssignment_eq_of_found hf] at hres ⊢
      have hm : m = n := by simpa using hres
      subst hm
      unfold findAssignment at hf
      cases hs : slots.find? (fun s => s.atribuido && s.usuario_id == some h) with
      | none => rw [hs] at hf; simp at hf
      | some s =>
          rw [hs] at hf
          have hmem : s ∈ slots := List.mem_of_find?_eq_some hs
          have hp := List.find?_some hs
          have hnum : s.numero = m := by simpa using hf
          refine ⟨s, hmem, hnum, ?_, ?_⟩
          · exact ((Bool.and_eq_true _ _).mp hp).1
          · have := ((Bool.and_eq_true _ _).mp hp).2
            simpa using this
  | none =>
      rw [requestAssignment_eq_of_fresh hf] at hres ⊢
      cases hc : slots.find? (fun s => !s.atribuido) with
      | none => rw [claimSlot_eq_of_none hc] at hres; simp at hres
      | some c =>
          rw [claimSlot_eq_of_some hc] at hres ⊢
          have hcn : c.numero = n := by simpa using hres
          refine ⟨⟨c.numero, true, some h, some now⟩, ?_, by simpa using hcn, rfl, rfl⟩
          have hcm : c ∈ slots := List.mem_of_find?_eq_some hc
          have heq : (fun t : Slot =>
              if (t.numero == c.numero) = true then
                (⟨t.numero, true, some h, some now⟩ : Slot) else t) c =
              (⟨c.numero, true, some h, some now⟩ : Slot) := by
            simp
          exact heq ▸ List.mem_map_of_mem _ hcm

/-! Facts about sequences of requests. -/

lemma runRequests_nil (slots : List Slot) : runRequests slots [] = ([], slots) := rfl

lemma runRequests_cons (slots : List Slot) (h : String) (t : Nat)
    (rest : List (String × Nat)) :
    runRequests slots ((h, t) :: rest) =
      ((h, (requestAssignment slots h t).1) ::
        (runRequests (requestAssignment slots h t).2 rest).1,
       (runRequests (requestAssignment slots h t).2 rest).2) := rfl

lemma map_numero_runRequests (slots : List Slot) (reqs : List (String × Nat)) :
    ((runRequests slots reqs).2).map Slot.numero = slots.map Slot.numero := by
  induction reqs generalizing slots with
  | nil => rfl
  | cons a rest ih =>
      obtain ⟨h, t⟩ := a
      rw [runRequests_cons]
      exact (ih _).trans (map_numero_requestAssignment slots h t)

lemma nodup_runRequests (slots : List Slot) (reqs : List (String × Nat))
    (hnd : (slots.map Slot.numero).Nodup) :
    (((runRequests slots reqs).2).map Slot.numero).Nodup := by
  rw [map_numero_runRequests]; exact hnd

lemma length_runRequests (slots : List Slot) (reqs : List (String × Nat)) :
    ((runRequests slots reqs).2).length = slots.length := by
  have := congrArg List.length (map_numero_runRequests slots reqs)
  simpa using this

lemma assignedTo_stable_step (slots : List Slot) (h : String) (t : Nat)
    (hnd : (slots.map Slot.numero).Nodup)
    {g : String} {n : Nat} (ha : assignedTo slots g n) :
    assignedTo (requestAssignment slots h t).2 g n := by
  obtain ⟨s, hs, hnum, hatt, husr⟩ := ha
  exact ⟨s, assigned_mem_requestAssignment slots h t hnd hs hatt, hnum, hatt, husr⟩

lemma assignedTo_stable_run (slots : List Slot) (reqs : List (String × Nat))
    (hnd : (slots.map Slot.numero).Nodup)
    {g : String} {n : Nat} (ha : assignedTo slots g n) :
    assignedTo (runRequests slots reqs).2 g n := by
  induction reqs generalizing slots with
  | nil => exact ha
  | cons a rest ih =>
      obtain ⟨h, t⟩ := a
      rw [runRequests_cons]
      exact ih _ (nodup_requestAssignment slots h t hnd)
        (assignedTo_stable_step slots h t hnd ha)

lemma mem_results_assignedTo (slots : List Slot) (reqs : List (String × Nat))
    (hnd : (slots.map Slot.numero).Nodup)
    {g : String} {n : Nat}
    (hm : (g, AssignResult.assigned n) ∈ (runRequests slots reqs).1) :
    assignedTo (runRequests slots reqs).2 g n := by
  induction reqs generalizing slots with
  | nil => simp [runRequests_nil] at hm
  | cons a rest ih =>
      obtain ⟨h, t⟩ := a
      rw [runRequests_cons] at hm ⊢
      rcases List.mem_cons.mp hm with hhead | htail
      · have hg2 : (requestAssignment slots h t).1 = AssignResult.assigned n := by
          have := congrArg Prod.snd hhead.symm
          simpa using this
        have hg1 : h = g := by
          have := congrArg Prod.fst hhead.symm
          simpa using this
        subst hg1
        exact assignedTo_stable_run _ rest (nodup_requestAssignment slots h t hnd)
          (assignedTo_requestAssignment slots h t hg2)
      · exact ih _ (nodup_requestAssignment slots h t hnd) htail

lemma assignedTo_unique (slots : List Slot)
    (hnd : (slots.map Slot.numero).Nodup)
    {g1 g2 : String} {n : Nat}
    (h1 : assignedTo slots g1 n) (h2 : assignedTo slots g2 n) : g1 = g2 := by
  obtain ⟨s1, hs1, hn1, _, hu1⟩ := h1
  obtain ⟨s2, hs2, hn2, _, hu2⟩ := h2
  have : s1 = s2 := numero_injective slots hnd hs1 hs2 (hn1.trans hn2.symm)
  rw [this] at hu1
  rw [hu1] at hu2
  exact Option.some.inj hu2

lemma findAssignment_after_claim (h : String) (now : Nat) {slots : List Slot} {c : Slot}
    (hall : ∀ s ∈ slots, (s.atribuido && s.usuario_id == some h) = false)
    (hcm : c ∈ slots) :
    findAssignment (slots.map (fun t =>
      if t.numero == c.numero then ⟨t.numero, true, some h, some now⟩ else t)) h =
      some c.numero := by
  induction slots with
  | nil => cases hcm
  | cons a rest ih =>
      by_cases hb : (a.numero == c.numero) = true
      · have hnum : a.numero = c.numero := by simpa using hb
        unfold findAssignment
        rw [List.map_cons]
        rw [List.find?_cons_of_pos _ (by simp [hb])]
        simp [hb, hnum]
      · have hca : c ≠ a := by
          intro hcontra
          rw [hcontra] at hb
          simp at hb
        have hcr : c ∈ rest := by
          rcases List.mem_cons.mp hcm with hx | hx
          · exact absurd hx hca
          · exact hx
        have hfa : a ∈ a :: rest := List.mem_cons_self a rest
        have hpa := hall a hfa
        unfold findAssignment at ih ⊢
        rw [List.map_cons]
        have hbneg : (a.numero == c.numero) = false := by
          cases hx : (a.numero == c.numero) with
          | true => exact absurd hx hb
          | false => rfl
        rw [List.find?_cons_of_neg _ (by simp [hbneg, hpa])]
        exact ih (fun s hs => hall s (List.mem_cons_of_mem a hs)) hcr

lemma requestAssignment_stable (slots : List Slot) (h : String) (t : Nat)
    {n : Nat} {slots' : List Slot}
    (hreq : requestAssignment slots h t = (AssignResult.assigned n, slots')) :
    ∀ t', requestAssignment slots' h t' = (AssignResult.assigned n, slots') := by
  intro t'
  cases hf : findAssignment slots h with
  | some m =>
      rw [requestAssignment_eq_of_found hf] at hreq
      have hm : m = n := by
        have := congrArg Prod.fst hreq
        simpa using this
      have hs : slots = slots' := by
        have := congrArg Prod.snd hreq
        simpa using this
      subst hm; subst hs
      exact requestAssignment_eq_of_found hf
  | none =>
      rw [requestAssignment_eq_of_fresh hf] at hreq
      cases hc : slots.find? (fun s => !s.atribuido) with
      | none =>
          rw [claimSlot_eq_of_none hc] at hreq
          have := congrArg Prod.fst hreq
          simp at this
      | some c =>
          rw [claimSlot_eq_of_some hc] at hreq
          have hm : c.numero = n := by
            have := congrArg Prod.fst hreq
            simpa using this
          have hs : slots.map (fun s =>
              if s.numero == c.numero then ⟨s.numero, true, some h, some t⟩ else s) = slots' := by
            have := congrArg Prod.snd hreq
            simpa using this
          have hall : ∀ s ∈ slots, (s.atribuido && s.usuario_id == some h) = false := by
            have hnone : slots.find? (fun s => s.atribuido && s.usuario_id == some h) = none := by
              unfold findAssignment at hf
              cases hy : slots.find? (fun s => s.atribuido && s.usuario_id == some h) with
              | none => rfl
              | some s0 => rw [hy] at hf; simp at hf
            intro s hsm
            have hns := List.find?_eq_none.mp hnone s hsm
            cases hx : (s.atribuido && s.usuario_id == some h) with
            | true => exact absurd hx hns
            | false => rfl
          have hfind : findAssignment slots' h = some n := by
            rw [← hs, ← hm]
            exact findAssignment_after_claim h t hall (List.mem_of_find?_eq_some hc)
          exact requestAssignment_eq_of_found hfind

/-- C1: under any schedule of requestAssignment calls against a pool whose
slot numbers are unique, two calls by distinct holders never return the
same number, so each free slot is granted to at most one holder.  Each
call is required to be indivisible, so every concurrent execution —
including ones where calls start from the same free snapshot — linearizes
to such a schedule. -/
theorem concurrent_requests_distinct_numbers
    (slots : List Slot) (reqs : List (String × Nat))
    (hnd : (slots.map Slot.numero).Nodup)
    (h1 h2 : String) (n1 n2 : Nat) (hne : h1 ≠ h2)
    (m1 : (h1, AssignResult.assigned n1) ∈ (runRequests slots reqs).1)
    (m2 : (h2, AssignResult.assigned n2) ∈ (runRequests slots reqs).1) :
    n1 ≠ n2 := by
  intro hn
  subst hn
  exact hne (assignedTo_unique _ (nodup_runRequests slots reqs hnd)
    (mem_results_assignedTo slots reqs hnd m1)
    (mem_results_assignedTo slots reqs hnd m2))

theorem concurrent_requests_distinct_numbers_witness :
    (("A"), AssignResult.assigned 1) ∈
        (runRequests (nova_reuniao_numeros 2) [(("A"), 0), (("B"), 0)]).1 ∧
    (("B"), AssignResult.assigned 2) ∈
        (runRequests (nova_reuniao_numeros 2) [(("A"), 0), (("B"), 0)]).1 ∧
    (1 : Nat) ≠ 2 :=
  ⟨by decide, by decide,
   concurrent_requests_distinct_numbers (nova_reuniao_numeros 2)
     [(("A"), 0), (("B"), 0)] (by decide) ("A") ("B") 1 2 (by decide)
     (by decide) (by decide)⟩

/-- C2: once a requestAssignment call for a holder has returned a number,
every further requestAssignment call for the same holder returns the very
same number and leaves the slot state untouched (idempotence per holder). -/
theorem requestAssignment_idempotent
    (slots : List Slot) (h : String) (t t' : Nat) (n : Nat) (slots' : List Slot)
    (hreq : requestAssignment slots h t = (AssignResult.assigned n, slots')) :
    requestAssignment slots' h t' = (AssignResult.assigned n, slots') :=
  requestAssignment_stable slots h t hreq t'

theorem requestAssignment_idempotent_witness :
    requestAssignment (nova_reuniao_numeros 1) ("A") 0 =
      (AssignResult.assigned 1, [⟨1, true, some ("A"), some 0⟩]) ∧
    requestAssignment [(⟨1, true, some ("A"), some 0⟩ : Slot)] ("A") 7 =
      (AssignResult.assigned 1, [⟨1, true, some ("A"), some 0⟩]) :=
  ⟨by decide,
   requestAssignment_idempotent (nova_reuniao_numeros 1) ("A") 0 7 1
     [⟨1, true, some ("A"), some 0⟩] (by decide)⟩

/-- C8: a requestAssignment call is all-or-nothing.  Either it fails and
the slot state is exactly the state before the call, or it succeeds, the
assignment is committed in the resulting state, and the number remains
retrievable by any later idempotent call of the same holder.  A number is
returned only in the committed case. -/
theorem assignment_all_or_nothing (slots : List Slot) (h : String) (t : Nat) :
    requestAssignment slots h t = (AssignResult.poolExhausted, slots) ∨
    ∃ n slots', requestAssignment slots h t = (AssignResult.assigned n, slots') ∧
      ∀ t', requestAssignment slots' h t' = (AssignResult.assigned n, slots') := by
  cases hf : findAssignment slots h with
  | some m =>
      right
      exact ⟨m, slots, requestAssignment_eq_of_found hf,
        requestAssignment_stable slots h t (requestAssignment_eq_of_found hf)⟩
  | none =>
      cases hc : slots.find? (fun s => !s.atribuido) with
      | none =>
          left
          rw [requestAssignment_eq_of_fresh hf, claimSlot_eq_of_none hc]
      | some c =>
          right
          have he : requestAssignment slots h t =
              (AssignResult.assigned c.numero,
               slots.map (fun s =>
                 if s.numero == c.numero then ⟨s.numero, true, some h, some t⟩ else s)) :=
            (requestAssignment_eq_of_fresh hf).trans (claimSlot_eq_of_some hc)
          exact ⟨c.numero, _, he, requestAssignment_stable slots h t he⟩

/-- C4: a successful requestAssignment call by a holder with no existing
assignment returns a number whose slot was free immediately before the
call; afterwards that slot is assigned to the holder with the current
time, and every other slot is unchanged. -/
theorem fresh_request_claims_free_slot
    (slots : List Slot) (h : String) (now n : Nat) (slots' : List Slot)
    (hfresh : findAssignment slots h = none)
    (hreq : requestAssignment slots h now = (AssignResult.assigned n, slots')) :
    (∃ s ∈ slots, s.numero = n ∧ s.atribuido = false) ∧
    slots' = slots.map (fun s =>
      if s.numero = n then ⟨n, true, some h, some now⟩ else s) := by
  rw [requestAssignment_eq_of_fresh hfresh] at hreq
  cases hc : slots.find? (fun s => !s.atribuido) with
  | none =>
      rw [claimSlot_eq_of_none hc] at hreq
      have := congrArg Prod.fst hreq
      simp at this
  | some c =>
      rw [claimSlot_eq_of_some hc] at hreq
      have h1 : c.numero = n := by
        have := congrArg Prod.fst hreq
        simpa using this
      have h2 : slots' = slots.map (fun s =>
          if (s.numero == c.numero) = true then
            (⟨s.numero, true, some h, some now⟩ : Slot) else s) := by
        have := congrArg Prod.snd hreq
        simpa using this.symm
      constructor
      · refine ⟨c, List.mem_of_find?_eq_some hc, h1, ?_⟩
        have := List.find?_some hc
        simpa using this
      · subst h1
        rw [h2]
        refine List.map_congr_left ?_
        intro s _
        by_cases hb : s.numero = c.numero <;> simp [hb]

theorem fresh_request_claims_free_slot_witness :
    findAssignment (nova_reuniao_numeros 2) ("A") = none ∧
    ((∃ s ∈ nova_reuniao_numeros 2, s.numero = 1 ∧ s.atribuido = false) ∧
     [(⟨1, true, some ("A"), some 5⟩ : Slot), ⟨2, false, none, none⟩] =
       (nova_reuniao_numeros 2).map (fun s =>
         if s.numero = 1 then ⟨1, true, some ("A"), some 5⟩ else s)) :=
  ⟨by decide,
   fresh_request_claims_free_slot (nova_reuniao_numeros 2) ("A") 5 1
     [⟨1, true, some ("A"), some 5⟩, ⟨2, false, none, none⟩]
     (by decide) (by decide)⟩

/-! Counting and freshness lemmas used for exhaustion and reset claims. -/

lemma findAssignment_eq_none_iff (slots : List Slot) (g : String) :
    findAssignment slots g = none ↔
      ∀ s ∈ slots, (s.atribuido && s.usuario_id == some g) = false := by
  unfold findAssignment
  constructor
  · intro hf s hs
    cases hy : slots.find? (fun s => s.atribuido && s.usuario_id == some g) with
    | none =>
        have := List.find?_eq_none.mp hy s hs
        cases hx : (s.atribuido && s.usuario_id == some g) with
        | true => exact absurd hx this
        | false => rfl
    | some s0 => rw [hy] at hf; simp at hf
  · intro hall
    have : slots.find? (fun s => s.atribuido && s.usuario_id == some g) = none :=
      List.find?_eq_none.mpr (fun s hs => by rw [hall s hs]; exact Bool.false_ne_true)
    rw [this]; rfl

lemma findAssignment_eq_none_of_free (slots : List Slot) (g : String)
    (hall : ∀ s ∈ slots, s.atribuido = false) :
    findAssignment slots g = none := by
  refine (findAssignment_eq_none_iff slots g).mpr ?_
  intro s hs
  rw [hall s hs]
  rfl

lemma fresh_stable_step (slots : List Slot) (h : String) (t : Nat) {g : String}
    (hne : h ≠ g) (hg : findAssignment slots g = none) :
    findAssignment (requestAssignment slots h t).2 g = none := by
  cases hf : findAssignment slots h with
  | some m => rw [requestAssignment_eq_of_found hf]; exact hg
  | none =>
      rw [requestAssignment_eq_of_fresh hf]
      cases hc : slots.find? (fun s => !s.atribuido) with
      | none => rw [claimSlot_eq_of_none hc]; exact hg
      | some c =>
          rw [claimSlot_eq_of_some hc]
          refine (findAssignment_eq_none_iff _ g).mpr ?_
          intro x hx
          obtain ⟨s, hsm, rfl⟩ := List.mem_map.mp hx
          by_cases hb : (s.numero == c.numero) = true
          · simp only [hb, if_true]
            have : ((some h : Option String) == some g) = false :=
              beq_eq_false_iff_ne.mpr (by simpa using hne)
            simp [this]
          · have hbneg : (s.numero == c.numero) = false := by
              cases hx2 : (s.numero == c.numero) with
              | true => exact absurd hx2 hb
              | false => rfl
            simp only [hbneg]
            simp only [Bool.false_eq_true, if_false]
            exact (findAssignment_eq_none_iff slots g).mp hg s hsm

lemma map_if_numero_eq_self (l : List Slot) (m : Nat) (f : Slot → Slot)
    (hall : ∀ s ∈ l, s.numero ≠ m) :
    l.map (fun t => if t.numero == m then f t else t) = l := by
  induction l with
  | nil => rfl
  | cons a rest ih =>
      have ha : (a.numero == m) = false :=
        beq_eq_false_iff_ne.mpr (hall a (List.mem_cons_self a rest))
      simp only [List.map_cons, ha]
      rw [ih (fun s hs => hall s (List.mem_cons_of_mem a hs))]
      simp

lemma countP_free_claim (slots : List Slot) (h : String) (now : Nat) {c : Slot}
    (hnd : (slots.map Slot.numero).Nodup)
    (hc : slots.find? (fun s => !s.atribuido) = some c) :
    ((claimSlot slots h now).2).countP (fun s => !s.atribuido) + 1 =
      slots.countP (fun s => !s.atribuido) := by
  rw [claimSlot_eq_of_some hc]
  show (slots.map (fun t =>
      if t.numero == c.numero then ⟨t.numero, true, some h, some now⟩ else t)).countP
        (fun s => !s.atribuido) + 1 =
      slots.countP (fun s => !s.atribuido)
  induction slots with
  | nil => simp at hc
  | cons a rest ih =>
      have hnd2 : (rest.map Slot.numero).Nodup := (List.nodup_cons.mp hnd).2
      have hna : a.numero ∉ rest.map Slot.numero := (List.nodup_cons.mp hnd).1
      by_cases hfa : (!a.atribuido) = true
      · have hfind : List.find? (fun s => !s.atribuido) (a :: rest) = some a :=
          List.find?_cons_of_pos rest hfa
        have hac : a = c := Option.some.inj ((hfind.symm.trans hc))
        subst hac
        have hmap : rest.map (fun t =>
            if t.numero == a.numero then (⟨t.numero, true, some h, some now⟩ : Slot) else t) =
            rest := by
          refine map_if_numero_eq_self rest a.numero _ ?_
          intro s hs hcontra
          exact hna (hcontra ▸ List.mem_map_of_mem Slot.numero hs)
        simp only [List.map_cons, beq_self_eq_true, if_true, hmap]
        rw [List.countP_cons, List.countP_cons]
        have hupd : (!(⟨a.numero, true, some h, some now⟩ : Slot).atribuido) = false := rfl
        simp [hupd, hfa]
      · have hfa2 : (!a.atribuido) = false := by
          cases hx : (!a.atribuido) with
          | true => exact absurd hx hfa
          | false => rfl
        have hc2 : rest.find? (fun s => !s.atribuido) = some c := by
          have hstep : List.find? (fun s => !s.atribuido) (a :: rest) =
              List.find? (fun s => !s.atribuido) rest :=
            List.find?_cons_of_neg rest hfa
          exact hstep.symm.trans hc
        have hcm : c ∈ rest := List.mem_of_find?_eq_some hc2
        have hac : (a.numero == c.numero) = false := by
          refine beq_eq_false_iff_ne.mpr ?_
          intro hcontra
          exact hna (hcontra ▸ List.mem_map_of_mem Slot.numero hcm)
        simp only [List.map_cons, hac]
        simp only [Bool.false_eq_true, if_false]
        rw [List.countP_cons, List.countP_cons]
        have := ih hnd2 hc2
        simp only [hfa2, Bool.false_eq_true, if_false]
        omega

lemma map_numero_nova (k : Int) :
    (nova_reuniao_numeros k).map Slot.numero = List.range' 1 k.toNat := by
  unfold nova_reuniao_numeros
  rw [List.map_map]
  exact List.map_id' _

lemma nodup_nova (k : Int) : ((nova_reuniao_numeros k).map Slot.numero).Nodup := by
  rw [map_numero_nova]
  exact List.nodup_range' _ _ _ (by norm_num)

lemma length_nova (k : Int) : (nova_reuniao_numeros k).length = k.toNat := by
  unfold nova_reuniao_numeros
  rw [List.length_map, List.length_range']

lemma mem_nova {k : Int} {s : Slot} (hs : s ∈ nova_reuniao_numeros k) :
    s.atribuido = false ∧ s.usuario_id = none ∧ s.atribuido_em = none := by
  unfold nova_reuniao_numeros at hs
  obtain ⟨n, _, rfl⟩ := List.mem_map.mp hs
  exact ⟨rfl, rfl, rfl⟩

lemma countP_free_nova (k : Int) :
    (nova_reuniao_numeros k).countP (fun s => !s.atribuido) = k.toNat := by
  rw [← length_nova k]
  refine List.countP_eq_length.mpr ?_
  intro s hs
  rw [(mem_nova hs).1]
  rfl

lemma countP_free_add_assigned (l : List Slot) :
    l.countP (fun s => !s.atribuido) + l.countP (fun s => s.atribuido) = l.length := by
  induction l with
  | nil => rfl
  | cons a rest ih =>
      rw [List.countP_cons, List.countP_cons]
      cases ha : a.atribuido <;> simp [ha] <;> omega

lemma fresh_request_succeeds (slots : List Slot) (h : String) (now : Nat)
    (hnd : (slots.map Slot.numero).Nodup)
    (hfresh : findAssignment slots h = none)
    (hpos : 0 < slots.countP (fun s => !s.atribuido)) :
    ∃ n slots1, requestAssignment slots h now = (AssignResult.assigned n, slots1) ∧
      slots1.countP (fun s => !s.atribuido) + 1 =
        slots.countP (fun s => !s.atribuido) := by
  obtain ⟨c, hcm, hcp⟩ := List.countP_pos_iff.mp hpos
  have hcs : (slots.find? (fun s => !s.atribuido)).isSome :=
    List.find?_isSome.mpr ⟨c, hcm, hcp⟩
  cases hc : slots.find? (fun s => !s.atribuido) with
  | none => rw [hc] at hcs; simp at hcs
  | some c0 =>
      refine ⟨c0.numero, _,
        (requestAssignment_eq_of_fresh hfresh).trans (claimSlot_eq_of_some hc), ?_⟩
      have := countP_free_claim slots h now hnd hc
      rw [claimSlot_eq_of_some hc] at this
      exact this

lemma run_all_assigned (reqs : List (String × Nat)) (slots : List Slot)
    (hnd : (slots.map Slot.numero).Nodup)
    (hrnd : (reqs.map Prod.fst).Nodup)
    (hfresh : ∀ p ∈ reqs, findAssignment slots p.1 = none)
    (hlen : slots.countP (fun s => !s.atribuido) = reqs.length) :
    (∀ p ∈ (runRequests slots reqs).1, ∃ n, p.2 = AssignResult.assigned n) ∧
      ((runRequests slots reqs).2).countP (fun s => !s.atribuido) = 0 := by
  induction reqs generalizing slots with
  | nil =>
      constructor
      · intro p hp
        rw [runRequests_nil] at hp
        simp at hp
      · rw [runRequests_nil]
        simpa using hlen
  | cons a rest ih =>
      obtain ⟨h, t⟩ := a
      have hfh : findAssignment slots h = none :=
        hfresh (h, t) (List.mem_cons_self _ _)
      have hpos : 0 < slots.countP (fun s => !s.atribuido) := by
        rw [hlen]
        simp
      obtain ⟨n, slots1, heq, hcount⟩ :=
        fresh_request_succeeds slots h t hnd hfh hpos
      have h1 : (requestAssignment slots h t).1 = AssignResult.assigned n := by
        rw [heq]
      have h2 : (requestAssignment slots h t).2 = slots1 := by
        rw [heq]
      have hnd1 : (slots1.map Slot.numero).Nodup := by
        rw [← h2]
        exact nodup_requestAssignment slots h t hnd
      have hrnd0 : (h :: rest.map Prod.fst).Nodup := by
        have hmaps : List.map Prod.fst ((h, t) :: rest) = h :: rest.map Prod.fst := rfl
        rw [← hmaps]
        exact hrnd
      have hnotin : h ∉ rest.map Prod.fst := (List.nodup_cons.mp hrnd0).1
      have hfresh1 : ∀ p ∈ rest, findAssignment slots1 p.1 = none := by
        intro p hp
        have hne : h ≠ p.1 := by
          intro hcontra
          exact hnotin (hcontra ▸ List.mem_map_of_mem Prod.fst hp)
        rw [← h2]
        exact fresh_stable_step slots h t hne (hfresh p (List.mem_cons_of_mem _ hp))
      have hlen1 : slots1.countP (fun s => !s.atribuido) = rest.length := by
        have hlen2 : slots.countP (fun s => !s.atribuido) = rest.length + 1 := by
          rw [hlen]
          rfl
        omega
      have hrnd1 : (rest.map Prod.fst).Nodup := (List.nodup_cons.mp hrnd0).2
      obtain ⟨iha, ihb⟩ := ih slots1 hnd1 hrnd1 hfresh1 hlen1
      rw [runRequests_cons]
      constructor
      · intro p hp
        rcases List.mem_cons.mp hp with hx | hx
        · refine ⟨n, ?_⟩
          rw [hx]
          exact h1
        · rw [h2] at hx
          exact iha p hx
      · rw [h2]
        exact ihb

lemma fresh_poolExhausted_iff (slots : List Slot) (h : String) (now : Nat)
    (hfresh : findAssignment slots h = none) :
    (requestAssignment slots h now).1 = AssignResult.poolExhausted ↔
      slots.filter (fun s => !s.atribuido) = [] := by
  rw [requestAssignment_eq_of_fresh hfresh]
  cases hc : slots.find? (fun s => !s.atribuido) with
  | none =>
      rw [claimSlot_eq_of_none hc]
      refine iff_of_true rfl ?_
      refine List.filter_eq_nil_iff.mpr ?_
      exact fun a ha => List.find?_eq_none.mp hc a ha
  | some c =>
      rw [claimSlot_eq_of_some hc]
      refine iff_of_false (by simp) ?_
      intro hcontra
      have hcm : c ∈ slots := List.mem_of_find?_eq_some hc
      have hcp := List.find?_some hc
      exact (List.filter_eq_nil_iff.mp hcontra) c hcm hcp

lemma fresh_stable_run (slots : List Slot) (reqs : List (String × Nat)) {g : String}
    (hg0 : findAssignment slots g = none)
    (hgn : ∀ p ∈ reqs, p.1 ≠ g) :
    findAssignment (runRequests slots reqs).2 g = none := by
  induction reqs generalizing slots with
  | nil => exact hg0
  | cons a rest ih =>
      obtain ⟨h, t⟩ := a
      rw [runRequests_cons]
      refine ih _ ?_ (fun p hp => hgn p (List.mem_cons_of_mem _ hp))
      exact fresh_stable_step slots h t (hgn (h, t) (List.mem_cons_self _ _)) hg0

/-- C3 (amended): after N successful requestAssignment calls by N distinct
holders against a freshly created pool of size N, every call succeeded,
exactly N slots are assigned and 0 are free, and an (N+1)-th call by a
fresh holder fails with PoolExhausted.  Moreover, for a holder with no
existing assignment, requestAssignment fails with PoolExhausted exactly
when no free slot remains at the moment the request is processed.  (The
holder-freshness condition is needed: a holder who already has an
assignment is served its number even from a full pool.) -/
theorem pool_exhaustion
    (N : Nat) (reqs : List (String × Nat)) (g : String) (t : Nat)
    (hlen : reqs.length = N)
    (hrnd : (reqs.map Prod.fst).Nodup)
    (hg : g ∉ reqs.map Prod.fst) :
    (∀ p ∈ (runRequests (nova_reuniao_numeros ((N : Nat) : Int)) reqs).1,
        ∃ n, p.2 = AssignResult.assigned n) ∧
    poolStatus (runRequests (nova_reuniao_numeros ((N : Nat) : Int)) reqs).2 =
      ⟨N, 0, N⟩ ∧
    (requestAssignment
        (runRequests (nova_reuniao_numeros ((N : Nat) : Int)) reqs).2 g t).1 =
      AssignResult.poolExhausted ∧
    (∀ slots2 h2 now2, findAssignment slots2 h2 = none →
      ((requestAssignment slots2 h2 now2).1 = AssignResult.poolExhausted ↔
        slots2.filter (fun s => !s.atribuido) = [])) := by
  have hnd := nodup_nova ((N : Nat) : Int)
  have hfree : ∀ s ∈ nova_reuniao_numeros ((N : Nat) : Int), s.atribuido = false :=
    fun s hs => (mem_nova hs).1
  have hfreshall : ∀ p ∈ reqs,
      findAssignment (nova_reuniao_numeros ((N : Nat) : Int)) p.1 = none :=
    fun p _ => findAssignment_eq_none_of_free _ _ hfree
  have hcount : (nova_reuniao_numeros ((N : Nat) : Int)).countP
      (fun s => !s.atribuido) = reqs.length := by
    rw [countP_free_nova, hlen]
    simp
  obtain ⟨ha, hb⟩ := run_all_assigned reqs _ hnd hrnd hfreshall hcount
  have hfinal_len :
      ((runRequests (nova_reuniao_numeros ((N : Nat) : Int)) reqs).2).length = N := by
    rw [length_runRequests, length_nova]
    simp
  have hfree0 :
      (((runRequests (nova_reuniao_numeros ((N : Nat) : Int)) reqs).2).filter
        (fun s => !s.atribuido)).length = 0 := by
    rw [← List.countP_eq_length_filter]
    exact hb
  have hassigN :
      (((runRequests (nova_reuniao_numeros ((N : Nat) : Int)) reqs).2).filter
        (fun s => s.atribuido)).length = N := by
    rw [← List.countP_eq_length_filter]
    have hsum := countP_free_add_assigned
      ((runRequests (nova_reuniao_numeros ((N : Nat) : Int)) reqs).2)
    rw [hb, hfinal_len] at hsum
    omega
  have hfg : findAssignment
      ((runRequests (nova_reuniao_numeros ((N : Nat) : Int)) reqs).2) g = none := by
    refine fresh_stable_run _ reqs (findAssignment_eq_none_of_free _ _ hfree) ?_
    intro p hp hcontra
    exact hg (hcontra ▸ List.mem_map_of_mem Prod.fst hp)
  refine ⟨ha, ?_, ?_, fun slots2 h2 now2 hf => fresh_poolExhausted_iff slots2 h2 now2 hf⟩
  · unfold poolStatus
    rw [hfinal_len, hfree0, hassigN]
  · refine (fresh_poolExhausted_iff _ g t hfg).mpr ?_
    exact List.length_eq_zero.mp hfree0

/-- C3 counterexample to the unconditional biconditional: in a pool whose
only slot is already assigned to holder A, no free slot remains, yet a
repeated request by A succeeds with the assigned number instead of failing
with PoolExhausted. -/
theorem pool_exhaustion_counterexample :
    ([(⟨1, true, some ("A"), some 0⟩ : Slot)].filter (fun s => !s.atribuido) = []) ∧
    (requestAssignment [(⟨1, true, some ("A"), some 0⟩ : Slot)] ("A") 1).1 =
      AssignResult.assigned 1 ∧
    (requestAssignment [(⟨1, true, some ("A"), some 0⟩ : Slot)] ("A") 1).1 ≠
      AssignResult.poolExhausted := by
  refine ⟨by decide, by decide, by decide⟩

theorem pool_exhaustion_witness :
    (requestAssignment
        (runRequests (nova_reuniao_numeros ((2 : Nat) : Int)) [(("A"), 0), (("B"), 0)]).2
        ("C") 9).1 = AssignResult.poolExhausted :=
  (pool_exhaustion 2 [(("A"), 0), (("B"), 0)] ("C") 9
    (by decide) (by decide) (by decide)).2.2.1

/-- C5 (amended): for a positive size the creation handler persists
exactly size slots numbered 1 through size, all free with no holder and no
timestamp; for size ≤ 0 the handler performs no validation and does not
fail with InvalidSize — it succeeds with a pool of zero slots. -/
theorem nova_reuniao_criacao (size : Int) :
    (0 < size →
      ∃ slots, nova_reuniao size = Except.ok slots ∧
        slots.map Slot.numero = List.range' 1 size.toNat ∧
        slots.length = size.toNat ∧
        ∀ s ∈ slots, s.atribuido = false ∧ s.usuario_id = none ∧
          s.atribuido_em = none) ∧
    (size ≤ 0 → nova_reuniao size = Except.ok []) := by
  constructor
  · intro _
    exact ⟨nova_reuniao_numeros size, rfl, map_numero_nova size, length_nova size,
      fun s hs => mem_nova hs⟩
  · intro hle
    unfold nova_reuniao nova_reuniao_numeros
    rw [Int.toNat_of_nonpos hle]
    rfl

/-- C5 counterexample: createPool(0) does not fail with InvalidSize — the
creation handler has no size check — and instead succeeds, creating a pool
with zero slots. -/
theorem nova_reuniao_counterexample :
    nova_reuniao 0 = Except.ok [] ∧
    nova_reuniao 0 ≠ Except.error PoolError.InvalidSize := by
  refine ⟨rfl, ?_⟩
  intro hcontra
  simp [nova_reuniao] at hcontra

theorem nova_reuniao_criacao_witness :
    ((0 : Int) < 3 ∧
      (∃ slots, nova_reuniao 3 = Except.ok slots ∧
        slots.map Slot.numero = List.range' 1 (3 : Int).toNat ∧
        slots.length = (3 : Int).toNat ∧
        ∀ s ∈ slots, s.atribuido = false ∧ s.usuario_id = none ∧
          s.atribuido_em = none)) ∧
    ((-1 : Int) ≤ 0 ∧ nova_reuniao (-1) = Except.ok []) :=
  ⟨⟨by decide, (nova_reuniao_criacao 3).1 (by decide)⟩,
   ⟨by decide, (nova_reuniao_criacao (-1)).2 (by decide)⟩⟩

/-- C10: every participant count the organizer widget admits lies between
its bounds 10 and 10000, hence is positive — the size ≤ 0 failure case is
unreachable through this interface — and the pool it creates is non-empty,
with one slot per admitted participant. -/
theorem widget_bounds_safe (v : Int)
    (h1 : max_numeros_min ≤ v) (h2 : v ≤ max_numeros_max) :
    0 < v ∧ nova_reuniao v = Except.ok (nova_reuniao_numeros v) ∧
      nova_reuniao_numeros v ≠ [] ∧ (nova_reuniao_numeros v).length = v.toNat := by
  have hmin : (10 : Int) ≤ v := h1
  have hpos : 0 < v := by omega
  refine ⟨hpos, rfl, ?_, length_nova v⟩
  intro hcontra
  have hlen := congrArg List.length hcontra
  rw [length_nova] at hlen
  simp only [List.length_nil] at hlen
  omega

theorem widget_bounds_safe_witness :
    max_numeros_min ≤ max_numeros_default ∧
    max_numeros_default ≤ max_numeros_max ∧
    (0 < max_numeros_default ∧
      nova_reuniao max_numeros_default =
        Except.ok (nova_reuniao_numeros max_numeros_default) ∧
      nova_reuniao_numeros max_numeros_default ≠ [] ∧
      (nova_reuniao_numeros max_numeros_default).length =
        max_numeros_default.toNat) :=
  ⟨by decide, by decide,
   widget_bounds_safe max_numeros_default (by decide) (by decide)⟩

/-! Facts about the participant response flow. -/

lemma respostas_do_append (db : List Resposta) (r : Resposta) (fid uid : String) :
    respostas_do (db ++ [r]) fid uid =
      respostas_do db fid uid ++
        (if (r.formulario_id == fid && r.usuario_id == uid) = true then [r] else []) := by
  unfold respostas_do
  rw [List.filter_append]
  cases hx : (r.formulario_id == fid && r.usuario_id == uid) <;> simp [hx]

lemma participant_run_stop (db : List Resposta) (fid uid : String)
    (s : Bool) (p : String) (hex : respostas_do db fid uid ≠ []) :
    participant_run db fid uid s p = (RunOutcome.jaRespondeu, db) := by
  unfold participant_run
  cases hx : respostas_do db fid uid with
  | nil => exact absurd hx hex
  | cons a l => rfl

lemma participant_run_insere_snd (db : List Resposta) (fid uid : String) (p : String)
    (hnone : respostas_do db fid uid = []) :
    (participant_run db fid uid true p).2 = db ++ [⟨fid, uid, p⟩] := by
  unfold participant_run
  rw [hnone]
  rfl

lemma participant_run_sem_snd (db : List Resposta) (fid uid : String) (p : String)
    (hnone : respostas_do db fid uid = []) :
    (participant_run db fid uid false p).2 = db := by
  unfold participant_run
  rw [hnone]
  rfl

lemma participant_run_invariant_step (db : List Resposta) (fid uid : String)
    (s : Bool) (p : String)
    (hinv : ∀ f u, (respostas_do db f u).length ≤ 1) (f u : String) :
    (respostas_do (participant_run db fid uid s p).2 f u).length ≤ 1 := by
  cases hx : respostas_do db fid uid with
  | cons a l =>
      rw [participant_run_stop db fid uid s p (by rw [hx]; simp)]
      exact hinv f u
  | nil =>
      cases s with
      | false =>
          rw [participant_run_sem_snd db fid uid p hx]
          exact hinv f u
      | true =>
          rw [participant_run_insere_snd db fid uid p hx]
          rw [respostas_do_append]
          by_cases hb : ((⟨fid, uid, p⟩ : Resposta).formulario_id == f &&
              (⟨fid, uid, p⟩ : Resposta).usuario_id == u) = true
          · have hparts := (Bool.and_eq_true _ _).mp hb
            have hf : fid = f := by simpa using hparts.1
            have hu : uid = u := by simpa using hparts.2
            subst hf
            subst hu
            rw [hb]
            rw [hx]
            simp
          · have hb2 : ((⟨fid, uid, p⟩ : Resposta).formulario_id == f &&
                (⟨fid, uid, p⟩ : Resposta).usuario_id == u) = false := by
              cases hy : ((⟨fid, uid, p⟩ : Resposta).formulario_id == f &&
                  (⟨fid, uid, p⟩ : Resposta).usuario_id == u) with
              | true => exact absurd hy hb
              | false => rfl
            rw [hb2]
            simp only [Bool.false_eq_true, if_false, List.append_nil]
            exact hinv f u

lemma runParticipant_invariant (acts : List (String × String × Bool × String))
    (db : List Resposta)
    (hinv : ∀ f u, (respostas_do db f u).length ≤ 1) :
    ∀ f u, (respostas_do (runParticipant db acts) f u).length ≤ 1 := by
  induction acts generalizing db with
  | nil => exact hinv
  | cons a rest ih =>
      obtain ⟨f0, u0, s0, p0⟩ := a
      exact ih _ (fun f u => participant_run_invariant_step db f0 u0 s0 p0 hinv f u)

/-- C9: in participant mode, a run for a (form, user) pair that already
has a response row warns and stops before the form renders, inserting
nothing; consequently, across any sequence of sequential participant runs
starting from a table with at most one row per pair, at most one response
row per (form, user) pair ever exists. -/
theorem respostas_at_most_one
    (db : List Resposta) (acts : List (String × String × Bool × String))
    (hinv : ∀ f u, (respostas_do db f u).length ≤ 1) :
    (∀ fid uid s p, respostas_do db fid uid ≠ [] →
        participant_run db fid uid s p = (RunOutcome.jaRespondeu, db)) ∧
    (∀ f u, (respostas_do (runParticipant db acts) f u).length ≤ 1) :=
  ⟨fun fid uid s p hex => participant_run_stop db fid uid s p hex,
   runParticipant_invariant acts db hinv⟩

theorem respostas_at_most_one_witness :
    (∀ f u, (respostas_do [] f u).length ≤ 1) ∧
    (∀ f u, (respostas_do (runParticipant []
        [(("F"), ("U"), true, ("x")), (("F"), ("U"), true, ("y"))]) f u).length ≤ 1) :=
  ⟨fun f u => by simp [respostas_do],
   (respostas_at_most_one [] [(("F"), ("U"), true, ("x")), (("F"), ("U"), true, ("y"))]
     (fun f u => by simp [respostas_do])).2⟩

/-! Slot lifecycle facts. -/

lemma assigned_mem_runRequests (slots : List Slot) (reqs : List (String × Nat))
    (hnd : (slots.map Slot.numero).Nodup)
    {s : Slot} (hs : s ∈ slots) (ha : s.atribuido = true) :
    s ∈ (runRequests slots reqs).2 := by
  induction reqs generalizing slots with
  | nil => exact hs
  | cons a rest ih =>
      obtain ⟨h, t⟩ := a
      rw [runRequests_cons]
      exact ih _ (nodup_requestAssignment slots h t hnd)
        (assigned_mem_requestAssignment slots h t hnd hs ha)

lemma slot_fate_step (slots : List Slot) (h : String) (t : Nat)
    (hnd : (slots.map Slot.numero).Nodup)
    {s : Slot} (hs : s ∈ slots) :
    s ∈ (requestAssignment slots h t).2 ∨
      (s.atribuido = false ∧
        (⟨s.numero, true, some h, some t⟩ : Slot) ∈ (requestAssignment slots h t).2) := by
  cases hf : findAssignment slots h with
  | some m => rw [requestAssignment_eq_of_found hf]; exact Or.inl hs
  | none =>
      rw [requestAssignment_eq_of_fresh hf]
      cases hc : slots.find? (fun s => !s.atribuido) with
      | none => rw [claimSlot_eq_of_none hc]; exact Or.inl hs
      | some c =>
          rw [claimSlot_eq_of_some hc]
          by_cases hb : (s.numero == c.numero) = true
          · have hnum : s.numero = c.numero := by simpa using hb
            have hcm : c ∈ slots := List.mem_of_find?_eq_some hc
            have hsc : s = c := numero_injective slots hnd hs hcm hnum
            subst hsc
            have hcfree : s.atribuido = false := by
              have := List.find?_some hc
              simpa using this
            right
            refine ⟨hcfree, ?_⟩
            have heq : (fun x : Slot =>
                if (x.numero == s.numero) = true then
                  (⟨x.numero, true, some h, some t⟩ : Slot) else x) s =
                (⟨s.numero, true, some h, some t⟩ : Slot) := by
              simp
            exact heq ▸ List.mem_map_of_mem _ hs
          · left
            have hbneg : (s.numero == c.numero) = false := by
              cases hx : (s.numero == c.numero) with
              | true => exact absurd hx hb
              | false => rfl
            have heq : (fun x : Slot =>
                if (x.numero == c.numero) = true then
                  (⟨x.numero, true, some h, some t⟩ : Slot) else x) s = s := by
              simp [hbneg]
            exact heq ▸ List.mem_map_of_mem _ hs

lemma slot_fate_run (slots : List Slot) (reqs : List (String × Nat))
    (hnd : (slots.map Slot.numero).Nodup)
    {s : Slot} (hs : s ∈ slots) :
    s ∈ (runRequests slots reqs).2 ∨
      (s.atribuido = false ∧ ∃ h now,
        (⟨s.numero, true, some h, some now⟩ : Slot) ∈ (runRequests slots reqs).2) := by
  induction reqs generalizing slots with
  | nil => exact Or.inl hs
  | cons a rest ih =>
      obtain ⟨h, t⟩ := a
      rw [runRequests_cons]
      rcases slot_fate_step slots h t hnd hs with hx | ⟨hfree, hx⟩
      · exact ih _ (nodup_requestAssignment slots h t hnd) hx
      · right
        refine ⟨hfree, h, t, ?_⟩
        exact assigned_mem_runRequests _ rest
          (nodup_requestAssignment slots h t hnd) hx rfl

/-- C6: under any sequence of assignment requests (releaseAll excluded),
slot numbers remain unique — at most one slot per number — an assigned
slot persists unchanged, never returning to free and never changing holder
or time, and a free slot either stays free unchanged or ends assigned; so
each slot transitions free to assigned at most once and never back. -/
theorem slot_invariants
    (slots : List Slot) (reqs : List (String × Nat))
    (hnd : (slots.map Slot.numero).Nodup) :
    (((runRequests slots reqs).2).map Slot.numero).Nodup ∧
    (∀ s ∈ slots, s.atribuido = true → s ∈ (runRequests slots reqs).2) ∧
    (∀ s ∈ slots, s ∈ (runRequests slots reqs).2 ∨
      (s.atribuido = false ∧ ∃ h now,
        (⟨s.numero, true, some h, some now⟩ : Slot) ∈ (runRequests slots reqs).2)) :=
  ⟨nodup_runRequests slots reqs hnd,
   fun s hs ha => assigned_mem_runRequests slots reqs hnd hs ha,
   fun s hs => slot_fate_run slots reqs hnd hs⟩

theorem slot_invariants_witness :
    (((runRequests (nova_reuniao_numeros 2) [(("A"), 0)]).2).map Slot.numero).Nodup ∧
    (∀ s ∈ nova_reuniao_numeros 2, s.atribuido = true →
      s ∈ (runRequests (nova_reuniao_numeros 2) [(("A"), 0)]).2) ∧
    (∀ s ∈ nova_reuniao_numeros 2,
      s ∈ (runRequests (nova_reuniao_numeros 2) [(("A"), 0)]).2 ∨
      (s.atribuido = false ∧ ∃ h now,
        (⟨s.numero, true, some h, some now⟩ : Slot) ∈
          (runRequests (nova_reuniao_numeros 2) [(("A"), 0)]).2)) :=
  slot_invariants (nova_reuniao_numeros 2) [(("A"), 0)] (by decide)

/-! Reset facts. -/

lemma map_numero_releaseAll (slots : List Slot) :
    (releaseAll slots).map Slot.numero = slots.map Slot.numero := by
  unfold releaseAll
  rw [List.map_map]
  refine List.map_congr_left ?_
  intro s _
  rfl

lemma mem_releaseAll {slots : List Slot} {s : Slot} (hs : s ∈ releaseAll slots) :
    s.atribuido = false ∧ s.usuario_id = none ∧ s.atribuido_em = none := by
  unfold releaseAll at hs
  obtain ⟨x, _, rfl⟩ := List.mem_map.mp hs
  exact ⟨rfl, rfl, rfl⟩

lemma length_releaseAll (slots : List Slot) :
    (releaseAll slots).length = slots.length := List.length_map slots _

lemma poolStatus_releaseAll (slots : List Slot) :
    poolStatus (releaseAll slots) = ⟨slots.length, slots.length, 0⟩ := by
  unfold poolStatus
  have hfree : ((releaseAll slots).filter (fun s => !s.atribuido)).length =
      slots.length := by
    rw [← List.countP_eq_length_filter, ← length_releaseAll slots]
    refine List.countP_eq_length.mpr ?_
    intro s hs
    rw [(mem_releaseAll hs).1]
    rfl
  have hassig : ((releaseAll slots).filter (fun s => s.atribuido)).length = 0 := by
    rw [← List.countP_eq_length_filter]
    refine List.countP_eq_zero.mpr ?_
    intro s hs
    rw [(mem_releaseAll hs).1]
    exact Bool.false_ne_true
  rw [hfree, hassig, length_releaseAll]

lemma issuer_of_becomes_assigned (reqs : List (String × Nat)) (slots : List Slot)
    (n : Nat)
    (hnd : (slots.map Slot.numero).Nodup)
    (hfree : ∃ s ∈ slots, s.numero = n ∧ s.atribuido = false)
    (hassig : ∃ s ∈ (runRequests slots reqs).2, s.numero = n ∧ s.atribuido = true) :
    ∃ g, (g, AssignResult.assigned n) ∈ (runRequests slots reqs).1 := by
  induction reqs generalizing slots with
  | nil =>
      obtain ⟨s1, hs1, hn1, hf1⟩ := hfree
      obtain ⟨s2, hs2, hn2, ha2⟩ := hassig
      rw [runRequests_nil] at hs2
      have hss : s1 = s2 := numero_injective slots hnd hs1 hs2 (hn1.trans hn2.symm)
      rw [hss, ha2] at hf1
      exact absurd hf1 (by simp)
  | cons a rest ih =>
      obtain ⟨h, t⟩ := a
      rw [runRequests_cons] at hassig ⊢
      cases hf : findAssignment slots h with
      | some m =>
          rw [requestAssignment_eq_of_found hf] at hassig ⊢
          exact (ih slots hnd hfree hassig).imp
            (fun g hg => List.mem_cons_of_mem _ hg)
      | none =>
          rw [requestAssignment_eq_of_fresh hf] at hassig ⊢
          cases hc : slots.find? (fun s => !s.atribuido) with
          | none =>
              rw [claimSlot_eq_of_none hc] at hassig ⊢
              exact (ih slots hnd hfree hassig).imp
                (fun g hg => List.mem_cons_of_mem _ hg)
          | some c =>
              rw [claimSlot_eq_of_some hc] at hassig ⊢
              by_cases hcn : c.numero = n
              · refine ⟨h, List.mem_cons.mpr (Or.inl ?_)⟩
                rw [hcn]
              · obtain ⟨s1, hs1, hn1, hf1⟩ := hfree
                have hb : (s1.numero == c.numero) = false := by
                  refine beq_eq_false_iff_ne.mpr ?_
                  rw [hn1]
                  exact fun hx => hcn hx.symm
                have heq : (fun x : Slot =>
                    if (x.numero == c.numero) = true then
                      (⟨x.numero, true, some h, some t⟩ : Slot) else x) s1 = s1 := by
                  simp [hb]
                have hfree1 : ∃ s ∈ slots.map (fun x : Slot =>
                    if (x.numero == c.numero) = true then
                      (⟨x.numero, true, some h, some t⟩ : Slot) else x),
                    s.numero = n ∧ s.atribuido = false :=
                  ⟨s1, heq ▸ List.mem_map_of_mem _ hs1, hn1, hf1⟩
                have hnd1 : ((slots.map (fun x : Slot =>
                    if (x.numero == c.numero) = true then
                      (⟨x.numero, true, some h, some t⟩ : Slot) else x)).map
                      Slot.numero).Nodup := by
                  have := nodup_requestAssignment slots h t hnd
                  rw [requestAssignment_eq_of_fresh hf, claimSlot_eq_of_some hc] at this
                  exact this
                exact (ih _ hnd1 hfree1 hassig).imp
                  (fun g hg => List.mem_cons_of_mem _ hg)

/-- C7: releaseAll returns every slot of the pool to free, clearing holder
and timestamp, so poolStatus afterwards reports all slots free and none
assigned; and a subsequent full round of fresh distinct-holder requests
reissues any previously assigned number to some holder. -/
theorem releaseAll_reset
    (slots : List Slot) (reqs : List (String × Nat)) (n : Nat)
    (hnd : (slots.map Slot.numero).Nodup)
    (hprev : ∃ s ∈ slots, s.numero = n ∧ s.atribuido = true)
    (hlen : reqs.length = slots.length)
    (hrnd : (reqs.map Prod.fst).Nodup) :
    poolStatus (releaseAll slots) = ⟨slots.length, slots.length, 0⟩ ∧
    (∀ s ∈ releaseAll slots, s.atribuido = false ∧ s.usuario_id = none ∧
      s.atribuido_em = none) ∧
    (∃ g, (g, AssignResult.assigned n) ∈ (runRequests (releaseAll slots) reqs).1) := by
  have hnd2 : ((releaseAll slots).map Slot.numero).Nodup := by
    rw [map_numero_releaseAll]
    exact hnd
  obtain ⟨s0, hs0, hn0, _⟩ := hprev
  have hfree2 : ∃ s ∈ releaseAll slots, s.numero = n ∧ s.atribuido = false := by
    refine ⟨⟨s0.numero, false, none, none⟩, ?_, hn0, rfl⟩
    exact List.mem_map_of_mem _ hs0
  have hfreshall : ∀ p ∈ reqs, findAssignment (releaseAll slots) p.1 = none :=
    fun p _ => findAssignment_eq_none_of_free _ _ (fun s hs => (mem_releaseAll hs).1)
  have hcount : (releaseAll slots).countP (fun s => !s.atribuido) = reqs.length := by
    rw [hlen, ← length_releaseAll slots]
    refine List.countP_eq_length.mpr ?_
    intro s hs
    rw [(mem_releaseAll hs).1]
    rfl
  obtain ⟨_, hb⟩ := run_all_assigned reqs (releaseAll slots) hnd2 hrnd hfreshall hcount
  have hmemn : n ∈ ((runRequests (releaseAll slots) reqs).2).map Slot.numero := by
    rw [map_numero_runRequests, map_numero_releaseAll]
    exact hn0 ▸ List.mem_map_of_mem Slot.numero hs0
  obtain ⟨s2, hs2, hn2⟩ := List.mem_map.mp hmemn
  have ha2 : s2.atribuido = true := by
    have := List.countP_eq_zero.mp hb s2 hs2
    cases hx : s2.atribuido with
    | true => rfl
    | false => exact absurd (by rw [hx]; rfl) this
  refine ⟨poolStatus_releaseAll slots, fun s hs => mem_releaseAll hs, ?_⟩
  exact issuer_of_becomes_assigned reqs (releaseAll slots) n hnd2 hfree2
    ⟨s2, hs2, hn2, ha2⟩

theorem releaseAll_reset_witness :
    poolStatus (releaseAll
      [(⟨1, true, some ("A"), some 0⟩ : Slot), ⟨2, false, none, none⟩]) =
      ⟨2, 2, 0⟩ ∧
    (∀ s ∈ releaseAll
        [(⟨1, true, some ("A"), some 0⟩ : Slot), ⟨2, false, none, none⟩],
      s.atribuido = false ∧ s.usuario_id = none ∧ s.atribuido_em = none) ∧
    (∃ g, (g, AssignResult.assigned 1) ∈
      (runRequests (releaseAll
        [(⟨1, true, some ("A"), some 0⟩ : Slot), ⟨2, false, none, none⟩])
        [(("B"), 3), (("C"), 4)]).1) :=
  releaseAll_reset
    [⟨1, true, some ("A"), some 0⟩, ⟨2, false, none, none⟩]
    [(("B"), 3), (("C"), 4)] 1
    (by decide) (by decide) (by decide) (by decide)
